import Mathlib

/-!
Shallow embedding of the FreeFinder listing pipeline: `models.py`,
`sites/craigslist.py`, `filters.py`, `storage/sqlite.py`, the notify
helpers and the notification tail of `cli.py`.

Modelling conventions:
* Every timestamp entering the pipeline is produced by `strptime` with a
  `%z` format (`DETAIL_TIME_FORMATS`), hence timezone-aware.  An aware
  `datetime` is modelled as a wall-clock reading in seconds together with
  its UTC offset in minutes; `astimezone(timezone.utc)` keeps the instant
  and sets the offset to 0.  Aware datetimes compare by instant.
* BeautifulSoup extraction is modelled at its output boundary: a search
  results page is a list of result records carrying the strings the code
  reads off the DOM (the `href`, the stripped texts of `div.title`,
  `div.location` and `div.price`).
* The per-listing detail fetch `_fetch_listing_times` is an oracle
  `fetchTimes : String → Option DT × Option DT` (url to posted/updated);
  a failed fetch is the oracle returning `(none, none)` — the code catches
  the exception and returns exactly that pair.
* Python `float` values are carried as `Rat`; the claims only depend on
  presence/absence of a price and on which digit strings `float()` accepts,
  never on binary rounding.
* Code that can raise is modelled with `Except Unit`.
-/

namespace FreeFinder

/-- An aware `datetime`: wall-clock reading in seconds since the epoch of
its own timezone, plus the UTC offset in minutes. -/
structure DT where
  wall : Int
  offMin : Int
deriving DecidableEq, Repr

/-- The instant (UTC epoch seconds) denoted by an aware datetime; aware
datetimes compare by instant. -/
def DT.instant (d : DT) : Int := d.wall - d.offMin * 60

/-- `dt.astimezone(timezone.utc)`: same instant, offset 0. -/
def DT.astimezoneUtc (d : DT) : DT := ⟨d.instant, 0⟩

/-- Two-digit zero padding. -/
def pad2 (n : Nat) : String := if n < 10 then "0" ++ toString n else toString n

/-- Four-digit zero padding. -/
def pad4 (n : Nat) : String :=
  (if n < 10 then "000" else if n < 100 then "00" else if n < 1000 then "0" else "")
    ++ toString n

/-- Year rendering for ISO dates. -/
def yearStr (y : Int) : String :=
  if y < 0 then "-" ++ pad4 (-y).toNat else pad4 y.toNat

/-- Days-since-epoch to civil date (proleptic Gregorian). -/
def civilFromDays (z : Int) : Int × Nat × Nat :=
  let za := z + 719468
  let era := Int.ediv za 146097
  let doe := (Int.emod za 146097).toNat
  let yoe := (doe - doe / 1460 + doe / 36524 - doe / 146096) / 365
  let y := (yoe : Int) + era * 400
  let doy := doe - (365 * yoe + yoe / 4 - yoe / 100)
  let mp := (5 * doy + 2) / 153
  let da := doy - (153 * mp + 2) / 5 + 1
  let mo := if mp < 10 then mp + 3 else mp - 9
  (if mo ≤ 2 then y + 1 else y, mo, da)

/-- UTC offset suffix of `datetime.isoformat()`. -/
def isoOffset (m : Int) : String :=
  if m ≥ 0 then "+" ++ pad2 (Int.toNat (m / 60)) ++ ":" ++ pad2 (Int.toNat (m % 60))
  else "-" ++ pad2 (Int.toNat ((-m) / 60)) ++ ":" ++ pad2 (Int.toNat ((-m) % 60))

/-- `datetime.isoformat()` for an aware datetime with zero microseconds. -/
def isoformat (d : DT) : String :=
  let days := Int.ediv d.wall 86400
  let sod := (Int.emod d.wall 86400).toNat
  let c := civilFromDays days
  yearStr c.1 ++ "-" ++ pad2 c.2.1 ++ "-" ++ pad2 c.2.2 ++ "T" ++
    pad2 (sod / 3600) ++ ":" ++ pad2 (sod % 3600 / 60) ++ ":" ++ pad2 (sod % 60) ++
    isoOffset d.offMin

/-- `models.Item`: a single free item listing. -/
structure Item where
  id : String
  title : String
  url : String
  source : String
  description : Option String := none
  location : Option String := none
  posted_at : Option DT := none
  price : Option Rat := none
deriving DecidableEq, Repr

/-- A stored row, the image of `Item.as_row` (the `created_at` column is
filled by SQLite and never written by `upsert_items`, so it is not part of
the row image). -/
structure Row where
  id : String
  title : String
  url : String
  source : String
  description : Option String
  location : Option String
  posted_at : Option String
  price : Option Rat
deriving DecidableEq, Repr

/-- `Item.as_row`: the SQLite-friendly tuple (datetimes become their
`isoformat()` strings). -/
def Item.as_row (i : Item) : Row :=
  ⟨i.id, i.title, i.url, i.source, i.description, i.location,
    i.posted_at.map isoformat, i.price⟩

/-! ## sites/craigslist.py -/

def SOURCE_NAME : String := "craigslist"

/-- `ID_PATTERN.search(url)`: leftmost occurrence of `/` followed by one or
more digits followed by `.html`; returns the digit group.  (The regex
`/(\d+)\.html` is leftmost with a greedy `\d+`; backtracking inside `\d+`
can never succeed because the character after a shorter digit run is again
a digit, so the greedy run is exactly `takeWhile isDigit`.) -/
def findIdDigits : List Char → Option (List Char)
  | [] => none
  | c :: rest =>
      if c = '/' then
        let ds := rest.takeWhile Char.isDigit
        if (!ds.isEmpty) && List.isPrefixOf ".html".data (rest.drop ds.length) then
          some ds
        else findIdDigits rest
      else findIdDigits rest

/-- `_extract_id(url, region)`. -/
def extract_id (url region : String) : Option String :=
  match findIdDigits url.data with
  | none => none
  | some ds => some (SOURCE_NAME ++ ":" ++ region ++ ":" ++ String.mk ds)

/-- `s.startswith(p)`. -/
def strStartsWith (s p : String) : Bool := List.isPrefixOf p.data s.data

/-- `urllib.parse.urljoin` restricted to the href shapes Craigslist emits:
absolute URLs pass through, root-relative paths attach to the
scheme-and-host base (the base URL has an empty path). -/
def urljoin (base href : String) : String :=
  if strStartsWith href "http://" || strStartsWith href "https://" then href
  else if strStartsWith href "/" then base ++ href
  else base ++ "/" ++ href

/-- `re.sub(r"[^\d.]", "", text)`: keep digits and dots. -/
def stripPriceText (s : String) : String :=
  ⟨s.data.filter (fun c => c.isDigit || c == '.')⟩

/-- Numeric value of a digit run. -/
def digitsVal (l : List Char) : Nat :=
  l.foldl (fun a c => 10 * a + (c.toNat - 48)) 0

/-- Value of a string of digits with at most one dot. -/
def ratOfDigitDot (s : String) : Rat :=
  match s.data.splitOn '.' with
  | [w] => (digitsVal w : Rat)
  | [w, f] => (digitsVal w : Rat) + (digitsVal f : Rat) / ((10 : Rat) ^ f.length)
  | _ => 0

/-- Python `float()` on a string of digits and dots: accepted iff it has at
least one digit and at most one dot (`"1."`, `".5"`, `"12"` parse; `"."`,
`""`, `"1.2.3"` raise `ValueError`, modelled as `none`). -/
def floatOfStripped (s : String) : Option Rat :=
  if s.data.any Char.isDigit && s.data.count '.' ≤ 1 then some (ratOfDigitDot s)
  else none

/-- Lines 127-131: the price of a result.  `none` price div means no price;
otherwise strip non-digit/dot characters, empty string means no price, and
a `float()` failure raises. -/
def priceResult (priceDiv : Option String) : Except Unit (Option Rat) :=
  match priceDiv with
  | none => Except.ok none
  | some txt =>
      let digits := stripPriceText txt
      if digits = "" then Except.ok none
      else
        match floatOfStripped digits with
        | some v => Except.ok (some v)
        | none => Except.error ()

/-- Lines 134-141: the reference time of a listing from its detail-page
`(posted_at, updated_at)` pair. -/
def referenceTime (posted updated : Option DT) : Option DT :=
  let ref0 : Option DT :=
    match posted with
    | some p => some p.astimezoneUtc
    | none => none
  match updated with
  | none => ref0
  | some u =>
      let uu := u.astimezoneUtc
      match ref0 with
      | none => some uu
      | some r => if uu.instant > r.instant then some uu else some r

/-- The `<a>` element of a search result together with the sub-elements the
code reads from it (stripped texts). -/
structure LinkTag where
  href : Option String
  text : String
  titleDiv : Option String
  locationDiv : Option String
  priceDiv : Option String
deriving DecidableEq, Repr

/-- One `li.cl-static-search-result` element. -/
structure RawResult where
  link : Option LinkTag
deriving DecidableEq, Repr

/-- The `stale_trigger` dict built at lines 147-151. -/
structure StaleTrigger where
  title : String
  url : String
  reference : String
deriving DecidableEq, Repr

/-- What the loop body decides about a single stub before touching the
loop state.  Everything up to line 141 depends only on the stub itself
(and the fixed crawl configuration), never on `items`/`stale_trigger`. -/
inductive Fate where
  | skipMalformed
  | priceError
  | skipUndated
  | stale (t : StaleTrigger)
  | fresh (i : Item)
deriving DecidableEq, Repr

/-- The crawl configuration of one `parse_listings` call (the stale cutoff
`datetime.now(timezone.utc) - max_age` is computed once at entry). -/
structure ParseCfg where
  region : String
  fetchTimes : String → Option DT × Option DT
  maxItems : Option Nat
  stopAtStale : Bool
  staleCutoff : Int

/-- Line 115: the absolute url of a result, from its href. -/
def stubUrl (cfg : ParseCfg) (href : String) : String :=
  urljoin ("https://" ++ cfg.region ++ ".craigslist.org") href

/-- Lines 121-122: the text of `div.title` when present, else the link
text. -/
def stubTitle (link : LinkTag) : String :=
  match link.titleDiv with
  | some t => t
  | none => link.text

/-- Lines 110-141 plus the item construction of lines 158-167: the
state-independent processing of one search result. -/
def processStub (cfg : ParseCfg) (r : RawResult) : Fate :=
  match r.link with
  | none => Fate.skipMalformed
  | some link =>
      match link.href with
      | none => Fate.skipMalformed
      | some href =>
          if href = "" then Fate.skipMalformed
          else
            match extract_id (stubUrl cfg href) cfg.region with
            | none => Fate.skipMalformed
            | some itemId =>
                match priceResult link.priceDiv with
                | Except.error _ => Fate.priceError
                | Except.ok price =>
                    match referenceTime (cfg.fetchTimes (stubUrl cfg href)).1
                        (cfg.fetchTimes (stubUrl cfg href)).2 with
                    | none => Fate.skipUndated
                    | some ref =>
                        if ref.instant < cfg.staleCutoff then
                          Fate.stale ⟨stubTitle link, stubUrl cfg href, isoformat ref⟩
                        else
                          Fate.fresh ⟨itemId, stubTitle link, stubUrl cfg href,
                            SOURCE_NAME, none, link.locationDiv, some ref, price⟩

/-- `if max_items and len(items) >= max_items` (a `None` or `0` bound is
falsy, hence no cap). -/
def capReached (maxItems : Option Nat) (count : Nat) : Bool :=
  match maxItems with
  | none => false
  | some n => n != 0 && decide (n ≤ count)

/-- Lines 143-170: the state update for one stub.  The returned `Bool` is
`true` when the loop continues to the next stub and `false` on `break`. -/
def stepState (cfg : ParseCfg) (f : Fate) (items : List Item)
    (trig : Option StaleTrigger) :
    Except Unit (Bool × List Item × Option StaleTrigger) :=
  match f with
  | Fate.skipMalformed => Except.ok (true, items, trig)
  | Fate.priceError => Except.error ()
  | Fate.skipUndated => Except.ok (true, items, trig)
  | Fate.stale t =>
      let trig' :=
        match trig with
        | none => some t
        | some t₀ => some t₀
      Except.ok (!cfg.stopAtStale, items, trig')
  | Fate.fresh i =>
      let items' := items ++ [i]
      Except.ok (!capReached cfg.maxItems items'.length, items', trig)

/-- The `for result in soup.select(...)` loop. -/
def parseLoop (cfg : ParseCfg) :
    List RawResult → List Item → Option StaleTrigger →
    Except Unit (List Item × Option StaleTrigger)
  | [], items, trig => Except.ok (items, trig)
  | r :: rest, items, trig =>
      match stepState cfg (processStub cfg r) items trig with
      | Except.error e => Except.error e
      | Except.ok (cont, items', trig') =>
          if cont then parseLoop cfg rest items' trig' else Except.ok (items', trig')

/-- Package the `parse_listings` arguments (`now` is the value of
`datetime.now(timezone.utc)` at entry, as a UTC instant). -/
def mkCfg (region : String) (fetchTimes : String → Option DT × Option DT)
    (maxItems : Option Nat) (stopAtStale : Bool) (maxAgeSecs now : Int) : ParseCfg :=
  ⟨region, fetchTimes, maxItems, stopAtStale, now - maxAgeSecs⟩

/-- `parse_listings` (sites/craigslist.py lines 93-172). -/
def parse_listings (page : List RawResult) (region : String)
    (fetchTimes : String → Option DT × Option DT) (maxItems : Option Nat)
    (maxAgeSecs : Int) (stopAtStale : Bool) (now : Int) :
    Except Unit (List Item × Option StaleTrigger) :=
  parseLoop (mkCfg region fetchTimes maxItems stopAtStale maxAgeSecs now) page [] none

/-! ## filters.py -/

/-- `INCLUDE_KEYWORDS`. -/
def INCLUDE_KEYWORDS : List String :=
  ["electronics", "xbox series x", "series x", "xbox", "nintendo switch",
   "switch", "console", "playstation", "ps5", "tablet", "laptop", "computer",
   "tv", "television", "monitor", "printer",
   "mattress", "bed", "bunk bed", "crib", "bassinet", "sofa", "couch",
   "futon", "table", "chair", "dresser", "shelves", "twin bed", "queen bed",
   "garden", "gardening", "planter", "raised bed", "mulch", "compost bin",
   "plant", "plants", "seed", "seeds", "soil", "greenhouse", "irrigation",
   "hose", "shovel", "rake", "wheelbarrow"]

/-- `EXCLUDE_KEYWORDS`. -/
def EXCLUDE_KEYWORDS : List String :=
  ["moving boxes", "moving box", "free boxes", "cardboard boxes", "dirt",
   "fill dirt", "manure"]

/-- `MAX_ITEM_AGE = timedelta(days=7)`, in seconds. -/
def MAX_ITEM_AGE : Int := 7 * 24 * 60 * 60

/-- Python `needle in hay` substring containment on character lists. -/
def listContainsSub (needle : List Char) : List Char → Bool
  | [] => needle.isEmpty
  | c :: t => List.isPrefixOf needle (c :: t) || listContainsSub needle t

/-- Python `needle in hay` on strings. -/
def strContainsSub (hay needle : String) : Bool :=
  listContainsSub needle.data hay.data

/-- `_normalize`: `text.lower()`, as a per-character map (the keyword
texts are ASCII, where Python `str.lower` is exactly per-character
lowercasing). -/
def normalize (s : String) : String := ⟨s.data.map Char.toLower⟩

/-- `_find_matches(text, keywords)`: the keywords contained in the
normalized text, in keyword-list order. -/
def findMatches (text : String) (keywords : List String) : List String :=
  keywords.filter (fun k => strContainsSub (normalize text) k)

/-- `FilterOutcome`. -/
structure FilterOutcome where
  item : Item
  matched_keywords : List String
  excluded_keywords : List String
deriving DecidableEq, Repr

/-- `is_recent(item, now)`.  `now` is the UTC instant of
`datetime.now(timezone.utc)`.  Every datetime in the model is aware
(see the module docstring), so the `tzinfo is None` branch of the source
cannot be reached and only the `astimezone` normalization is modelled. -/
def isRecent (item : Item) (now : Int) : Bool :=
  match item.posted_at with
  | none => false
  | some p => decide (p.astimezoneUtc.instant ≥ now - MAX_ITEM_AGE)

/-- `evaluate_item(item)`. -/
def evaluateItem (item : Item) : FilterOutcome :=
  let text := item.title ++ " " ++ (item.description.getD "")
  ⟨item, findMatches text INCLUDE_KEYWORDS, findMatches text EXCLUDE_KEYWORDS⟩

/-- `filter_items(items)` with the single `now = datetime.now(timezone.utc)`
captured at entry.  Returns `(kept_items, dropped_outcomes)`; both lists
preserve traversal order. -/
def filterItems (now : Int) : List Item → List Item × List FilterOutcome
  | [] => ([], [])
  | item :: rest =>
      let outcome := evaluateItem item
      let r := filterItems now rest
      if isRecent item now = false then (r.1, outcome :: r.2)
      else if outcome.excluded_keywords ≠ [] ∨ outcome.matched_keywords = [] then
        (r.1, outcome :: r.2)
      else (item :: r.1, r.2)

/-- The keep decision of the `filter_items` loop body for one item. -/
def keepDecision (item : Item) (now : Int) : Bool :=
  if isRecent item now = false then false
  else if (evaluateItem item).excluded_keywords ≠ [] ∨
      (evaluateItem item).matched_keywords = [] then false
  else true

/-- `describe_rejection(outcome, now=now)`. -/
def describeRejection (outcome : FilterOutcome) (now : Int) : String :=
  if isRecent outcome.item now = false then
    match outcome.item.posted_at with
    | none => "missing posted date"
    | some p => "posted " ++ isoformat p.astimezoneUtc ++ " (older than 7 days)"
  else if outcome.excluded_keywords ≠ [] then
    "excluded keywords: " ++ String.intercalate ", " outcome.excluded_keywords
  else if outcome.matched_keywords = [] then "no matching keywords"
  else "kept"

/-! ## storage/sqlite.py -/

/-- `INSERT ... ON CONFLICT(id) DO UPDATE` for one row: replace the row
with the same primary key in place, or append a new row. -/
def upsertRow : List Row → Row → List Row
  | [], r => [r]
  | r₀ :: rest, r => if r₀.id = r.id then r :: rest else r₀ :: upsertRow rest r

/-- `upsert_items(connection, items)`: `executemany` over the rows in
order (the returned count `len(rows)` is just `items.length`). -/
def upsertItems (t : List Row) (items : List Item) : List Row :=
  (items.map Item.as_row).foldl upsertRow t

/-- Primary-key lookup in the stored table. -/
def lookupRow : List Row → String → Option Row
  | [], _ => none
  | r₀ :: rest, k => if r₀.id = k then some r₀ else lookupRow rest k

/-- The last row in an upsert batch that writes a given id. -/
def lastWrite (rows : List Row) (k : String) : Option Row :=
  rows.foldl (fun a r => if r.id = k then some r else a) none

/-- The id column of a table. -/
def rowIds (t : List Row) : List String := t.map Row.id

/-! ## notify/ and the notification tail of cli.py -/

/-- The four notification channels, in the order `crawl_once` invokes
them (lines 103-122): Slack webhook, Twilio SMS, SMTP email, ntfy. -/
inductive Channel where
  | slack
  | sms
  | email
  | ntfy
deriving DecidableEq, Repr

/-- Which channels are configured (presence of a truthy webhook URL,
`SmsConfig`, `EmailConfig`, ntfy topic). -/
structure NotifyCfg where
  webhook : Bool
  smsConfig : Bool
  emailConfig : Bool
  ntfyTopic : Bool
deriving DecidableEq, Repr

/-- The configured channels in invocation order.  `send_sms`,
`send_email` and `send_ntfy_message` return immediately when their
configuration is absent, and the Slack/email sends are guarded by `if`;
an unconfigured channel performs no network send. -/
def configuredChannels (cfg : NotifyCfg) : List Channel :=
  (if cfg.webhook then [Channel.slack] else []) ++
  (if cfg.smsConfig then [Channel.sms] else []) ++
  (if cfg.emailConfig then [Channel.email] else []) ++
  (if cfg.ntfyTopic then [Channel.ntfy] else [])

/-- Sequential sends with no exception handler: each helper raises on
failure (`raise_for_status`, Twilio/SMTP errors) and `crawl_once` has no
`try`/`except` around lines 103-122, so the first failing send aborts the
remaining sends.  `ok c` says whether channel `c`'s network send would
succeed.  Returns the channels whose send was attempted, and `error` when
an exception escaped. -/
def fanoutFrom (ok : Channel → Bool) : List Channel → List Channel × Except Unit Unit
  | [] => ([], Except.ok ())
  | c :: cs =>
      if ok c then
        let r := fanoutFrom ok cs
        (c :: r.1, r.2)
      else ([c], Except.error ())

/-- Lines 101-122 of cli.py: the notification block, guarded by
`if inserted and (webhook or sms_config or ntfy_config["topic"] or
email_config)`. -/
def notifyFanout (cfg : NotifyCfg) (inserted : Nat) (ok : Channel → Bool) :
    List Channel × Except Unit Unit :=
  if inserted ≠ 0 ∧ (cfg.webhook || cfg.smsConfig || cfg.ntfyTopic || cfg.emailConfig) = true
  then fanoutFrom ok (configuredChannels cfg)
  else ([], Except.ok ())

/-- Lines 98-122 of cli.py: `inserted = upsert_items(connection, kept_items)`
followed by the notification block.  The upsert is committed before any
send; a notification exception cannot touch the store. -/
def crawlTail (t : List Row) (kept : List Item) (cfg : NotifyCfg)
    (ok : Channel → Bool) : List Row × (List Channel × Except Unit Unit) :=
  let t' := upsertItems t kept
  let inserted := kept.length
  (t', notifyFanout cfg inserted ok)

/-! ## Derived notions used to state the loop claims -/

/-- The items `parse_listings` would build from the stubs of `l` that
reach the fresh branch. -/
def freshItems (cfg : ParseCfg) (l : List RawResult) : List Item :=
  l.filterMap (fun r =>
    match processStub cfg r with
    | Fate.fresh i => some i
    | _ => none)

/-- A stub whose processing neither raises nor reaches the stale branch. -/
def Unhalting (cfg : ParseCfg) (r : RawResult) : Prop :=
  processStub cfg r = Fate.skipMalformed ∨ processStub cfg r = Fate.skipUndated ∨
    ∃ i : Item, processStub cfg r = Fate.fresh i

/-- `maxItems` never stops an enumeration that emits `k` items: the bound
is falsy (`None`/`0`) or `k` stays strictly below it. -/
def capAllows (maxItems : Option Nat) (k : Nat) : Prop :=
  match maxItems with
  | none => True
  | some n => n = 0 ∨ k < n

/-! ## Concrete inputs used by counterexamples and witnesses -/

/-- A well-formed search result with the given href, title and price text. -/
def mkRes (href title : String) (priceDiv : Option String := none) : RawResult :=
  ⟨some ⟨some href, "", some title, none, priceDiv⟩⟩

def urlA : String := "https://sanantonio.craigslist.org/zip/d/x/111.html"

def urlB : String := "https://sanantonio.craigslist.org/zip/d/x/222.html"

def urlC : String := "https://sanantonio.craigslist.org/zip/d/x/333.html"

/-- A detail-fetch oracle: url 111 has no timestamps (e.g. its detail fetch
failed), every other url posted at instant 1700000000 UTC. -/
def fetchC2 : String → Option DT × Option DT := fun u =>
  if u = urlA then (none, none) else (some ⟨1700000000, 0⟩, none)

def pageC2 : List RawResult := [mkRes urlA "old couch", mkRes urlB "free couch"]

def itemB : Item :=
  ⟨"craigslist:sanantonio:222", "free couch", urlB, "craigslist", none, none,
    some ⟨1700000000, 0⟩, none⟩

/-- A detail-fetch oracle: url 111 posted at instant 0 (1970, far below any
recent cutoff), every other url posted at instant 1700000000 UTC. -/
def fetchC3 : String → Option DT × Option DT := fun u =>
  if u = urlA then (some ⟨0, 0⟩, none) else (some ⟨1700000000, 0⟩, none)

def xsC3 : List RawResult := [mkRes urlB "free couch"]

def sC3 : RawResult := mkRes urlA "old couch"

def ysC3 : List RawResult := [mkRes urlC "later thing"]

/-- The `stale_trigger` the loop builds for `sC3`. -/
def trigA : StaleTrigger := ⟨"old couch", urlA, "1970-01-01T00:00:00+00:00"⟩

/-- A detail-fetch oracle for the multiple-stale-stubs scenario: url 222
is fresh (instant 1700000000), every other url is stale (instant 0). -/
def fetchC7 : String → Option DT × Option DT := fun u =>
  if u = urlB then (some ⟨1700000000, 0⟩, none) else (some ⟨0, 0⟩, none)

/-- A second stale stub, encountered after `sC3`. -/
def ysC7 : List RawResult := [mkRes urlC "another old couch"]

/-- A page whose only result carries the price text `"$1.50-2.50"`; the
stripped digit string `"1.502.50"` has two dots, so `float()` raises. -/
def pageC6 : List RawResult := [mkRes urlA "free stuff" (some "$1.50-2.50")]

/-- A listing with no timestamps but an include-keyword title. -/
def itemNoDate : Item :=
  ⟨"x:1", "free mattress", "u", "craigslist", none, none, none, none⟩

/-- A recent listing whose title matches both an exclude keyword
(`"moving boxes"`) and an include keyword (`"mattress"`). -/
def itemBoth : Item :=
  ⟨"x:2", "free moving boxes and mattress", "u", "craigslist", none, none,
    some ⟨1700000000, 0⟩, none⟩

/-- Slack and SMS configured, email and ntfy absent. -/
def cfgBoth : NotifyCfg := ⟨true, true, false, false⟩

/-- A send oracle under which the Slack webhook send raises and every
other channel would succeed. -/
def okFailSlack : Channel → Bool := fun c =>
  match c with
  | Channel.slack => false
  | _ => true

/-! ## Storage lemmas -/

theorem lookupRow_upsertRow (t : List Row) (r : Row) (k : String) :
    lookupRow (upsertRow t r) k = if k = r.id then some r else lookupRow t k := by
  induction t with
  | nil =>
      rcases eq_or_ne k r.id with h | h
      · simp [upsertRow, lookupRow, h]
      · simp [upsertRow, lookupRow, h, Ne.symm h]
  | cons r₀ rest ih =>
      rcases eq_or_ne r₀.id r.id with h₁ | h₁
      · rcases eq_or_ne k r.id with h₂ | h₂
        · simp [upsertRow, lookupRow, h₁, h₂]
        · have h₃ : r₀.id ≠ k := by rw [h₁]; exact Ne.symm h₂
          simp [upsertRow, lookupRow, h₁, h₂, Ne.symm h₂, h₃]
      · rcases eq_or_ne k r.id with h₂ | h₂
        · subst h₂
          simp [upsertRow, lookupRow, h₁, ih]
        · simp [upsertRow, lookupRow, h₁, h₂, Ne.symm h₂, ih]

theorem lookupRow_foldl (rows : List Row) :
    ∀ (t : List Row) (k : String),
      lookupRow (rows.foldl upsertRow t) k =
        rows.foldl (fun a r => if r.id = k then some r else a) (lookupRow t k) := by
  induction rows with
  | nil => intro t k; rfl
  | cons r rows ih =>
      intro t k
      simp only [List.foldl_cons]
      rw [ih, lookupRow_upsertRow]
      rcases eq_or_ne k r.id with h | h
      · simp [h]
      · simp [h, Ne.symm h]

theorem foldAssign_init (k : String) (rows : List Row) :
    ∀ acc : Option Row,
      rows.foldl (fun a r => if r.id = k then some r else a) acc =
        match lastWrite rows k with
        | some r => some r
        | none => acc := by
  induction rows with
  | nil => intro acc; simp [lastWrite]
  | cons r rows ih =>
      intro acc
      have hcons : lastWrite (r :: rows) k =
          match lastWrite rows k with
          | some r' => some r'
          | none => if r.id = k then some r else none := by
        simp only [lastWrite, List.foldl_cons]
        exact ih (if r.id = k then some r else none)
      simp only [List.foldl_cons, hcons]
      rw [ih (if r.id = k then some r else acc)]
      cases lastWrite rows k with
      | none => split_ifs <;> rfl
      | some r' => rfl

theorem lookupRow_upsertItems (t : List Row) (items : List Item) (k : String) :
    lookupRow (upsertItems t items) k =
      match lastWrite (items.map Item.as_row) k with
      | some r => some r
      | none => lookupRow t k := by
  unfold upsertItems
  rw [lookupRow_foldl, foldAssign_init]

theorem rowIds_cons (x : Row) (t : List Row) : rowIds (x :: t) = x.id :: rowIds t := rfl

theorem rowIds_upsertRow (t : List Row) (r : Row) :
    rowIds (upsertRow t r) =
      if r.id ∈ rowIds t then rowIds t else rowIds t ++ [r.id] := by
  induction t with
  | nil => simp [upsertRow, rowIds]
  | cons r₀ rest ih =>
      rcases eq_or_ne r₀.id r.id with h₁ | h₁
      · have hm : r.id ∈ rowIds (r₀ :: rest) := by
          rw [rowIds_cons]; exact List.mem_cons.mpr (Or.inl h₁.symm)
        rw [if_pos hm]
        have hup : upsertRow (r₀ :: rest) r = r :: rest := by
          simp [upsertRow, h₁]
        rw [hup, rowIds_cons, rowIds_cons, h₁]
      · have hne : r.id ≠ r₀.id := fun hh => h₁ hh.symm
        have hiff : r.id ∈ r₀.id :: rowIds rest ↔ r.id ∈ rowIds rest := by
          constructor
          · intro h
            rcases List.mem_cons.mp h with h | h
            · exact absurd h hne
            · exact h
          · exact fun h => List.mem_cons.mpr (Or.inr h)
        simp only [upsertRow, if_neg h₁, rowIds_cons, ih]
        rcases em (r.id ∈ rowIds rest) with h₂ | h₂
        · rw [if_pos h₂, if_pos (hiff.mpr h₂)]
        · rw [if_neg h₂, if_neg (fun hh => h₂ (hiff.mp hh))]
          rfl

theorem mem_rowIds_upsertRow (t : List Row) (r : Row) :
    r.id ∈ rowIds (upsertRow t r) := by
  rw [rowIds_upsertRow]
  split_ifs with h
  · exact h
  · simp

theorem rowIds_subset_upsertRow (t : List Row) (r : Row) :
    rowIds t ⊆ rowIds (upsertRow t r) := by
  rw [rowIds_upsertRow]
  split_ifs
  · exact fun x hx => hx
  · exact fun x hx => by simp [hx]

theorem rowIds_foldl_mono (rows : List Row) :
    ∀ t : List Row, rowIds t ⊆ rowIds (rows.foldl upsertRow t) := by
  induction rows with
  | nil => intro t; exact fun x hx => hx
  | cons r rows ih =>
      intro t
      simp only [List.foldl_cons]
      exact fun x hx => ih (upsertRow t r) (rowIds_subset_upsertRow t r hx)

theorem mem_rowIds_foldl (rows : List Row) :
    ∀ (t : List Row) (r : Row), r ∈ rows → r.id ∈ rowIds (rows.foldl upsertRow t) := by
  induction rows with
  | nil => intro t r h; cases h
  | cons r₀ rows ih =>
      intro t r h
      simp only [List.foldl_cons]
      rcases List.mem_cons.mp h with h | h
      · subst h
        exact rowIds_foldl_mono rows (upsertRow t r) (mem_rowIds_upsertRow t r)
      · exact ih (upsertRow t r₀) r h

theorem rowIds_foldl_stable (rows : List Row) :
    ∀ t : List Row, (∀ r ∈ rows, r.id ∈ rowIds t) →
      rowIds (rows.foldl upsertRow t) = rowIds t := by
  induction rows with
  | nil => intro t _; rfl
  | cons r rows ih =>
      intro t h
      have hr : r.id ∈ rowIds t := h r (by simp)
      have hids : rowIds (upsertRow t r) = rowIds t := by
        rw [rowIds_upsertRow, if_pos hr]
      simp only [List.foldl_cons]
      rw [ih (upsertRow t r) (by intro x hx; rw [hids]; exact h x (by simp [hx])), hids]

/-! ## Parse-loop lemmas -/

theorem referenceTime_offMin (p u : Option DT) (r : DT)
    (h : referenceTime p u = some r) : r.offMin = 0 := by
  unfold referenceTime at h
  cases p with
  | none =>
      cases u with
      | none => simp at h
      | some u =>
          simp at h
          rw [← h]
          rfl
  | some p =>
      cases u with
      | none =>
          simp at h
          rw [← h]
          rfl
      | some u =>
          simp only at h
          split at h <;> (injection h with h; rw [← h]; rfl)

theorem processStub_fresh (cfg : ParseCfg) (r : RawResult) (i : Item)
    (h : processStub cfg r = Fate.fresh i) :
    ∃ d : DT, i.posted_at = some d ∧ d.offMin = 0 ∧ cfg.staleCutoff ≤ d.instant := by
  unfold processStub at h
  repeat' split at h
  any_goals exact Fate.noConfusion h
  rename_i ref hrt hnotlt
  injection h with h
  refine ⟨ref, ?_, ?_, ?_⟩
  · rw [← h]
  · exact referenceTime_offMin _ _ _ hrt
  · exact Int.not_lt.mp hnotlt

theorem parseLoop_posted (cfg : ParseCfg) (P : Item → Prop)
    (hP : ∀ (r : RawResult) (i : Item), processStub cfg r = Fate.fresh i → P i) :
    ∀ (l : List RawResult) (items : List Item) (trig : Option StaleTrigger)
      (out : List Item × Option StaleTrigger),
      (∀ i ∈ items, P i) → parseLoop cfg l items trig = Except.ok out →
      ∀ i ∈ out.1, P i := by
  intro l
  induction l with
  | nil =>
      intro items trig out hitems heq i hi
      simp only [parseLoop] at heq
      injection heq with heq
      rw [← heq] at hi
      exact hitems i hi
  | cons r rest ih =>
      intro items trig out hitems heq i hi
      simp only [parseLoop] at heq
      cases hf : processStub cfg r with
      | skipMalformed =>
          rw [hf] at heq
          simp only [stepState, if_pos] at heq
          exact ih items trig out hitems heq i hi
      | skipUndated =>
          rw [hf] at heq
          simp only [stepState, if_pos] at heq
          exact ih items trig out hitems heq i hi
      | priceError =>
          rw [hf] at heq
          simp [stepState] at heq
      | stale t =>
          rw [hf] at heq
          simp only [stepState] at heq
          split at heq
          · exact ih items _ out hitems heq i hi
          · injection heq with heq
            rw [← heq] at hi
            exact hitems i hi
      | fresh i₀ =>
          rw [hf] at heq
          simp only [stepState] at heq
          have hitems' : ∀ x ∈ items ++ [i₀], P x := by
            intro x hx
            rcases List.mem_append.mp hx with hx | hx
            · exact hitems x hx
            · rw [List.mem_singleton.mp hx]
              exact hP r i₀ hf
          split at heq
          · exact ih (items ++ [i₀]) trig out hitems' heq i hi
          · injection heq with heq
            rw [← heq] at hi
            exact hitems' i hi

theorem parseLoop_skip_middle (cfg : ParseCfg) (a : RawResult)
    (ha : processStub cfg a = Fate.skipUndated) (ys : List RawResult) :
    ∀ (xs : List RawResult) (items : List Item) (trig : Option StaleTrigger),
      parseLoop cfg (xs ++ a :: ys) items trig = parseLoop cfg (xs ++ ys) items trig := by
  intro xs
  induction xs with
  | nil =>
      intro items trig
      simp [parseLoop, ha, stepState]
  | cons x xs ih =>
      intro items trig
      simp only [List.cons_append, parseLoop]
      cases hs : stepState cfg (processStub cfg x) items trig with
      | error e => rfl
      | ok v =>
          rcases v with ⟨cont, items', trig'⟩
          cases cont with
          | true => simp only [if_pos]; exact ih items' trig'
          | false => rfl

theorem capReached_eq_false (m : Option Nat) (c total : Nat)
    (h : capAllows m total) (hc : c ≤ total) : capReached m c = false := by
  cases m with
  | none => rfl
  | some n =>
      rcases h with h | h
      · simp [capReached, h]
      · have hn : ¬ n ≤ c := by omega
        simp [capReached, hn]

theorem parseLoop_clean_run (cfg : ParseCfg) (tail : List RawResult) :
    ∀ (xs : List RawResult) (items : List Item) (trig : Option StaleTrigger),
      (∀ r ∈ xs, Unhalting cfg r) →
      capAllows cfg.maxItems (items.length + (freshItems cfg xs).length) →
      parseLoop cfg (xs ++ tail) items trig =
        parseLoop cfg tail (items ++ freshItems cfg xs) trig := by
  intro xs
  induction xs with
  | nil =>
      intro items trig _ _
      simp [freshItems]
  | cons r xs ih =>
      intro items trig hx hcap
      have hxs : ∀ x ∈ xs, Unhalting cfg x :=
        fun x hx' => hx x (List.mem_cons_of_mem r hx')
      rcases hx r (List.mem_cons_self r xs) with hf | hf | ⟨i, hf⟩
      · have hlist : freshItems cfg (r :: xs) = freshItems cfg xs := by
          simp [freshItems, List.filterMap_cons, hf]
        rw [hlist] at hcap ⊢
        rw [List.cons_append]
        have hstep : parseLoop cfg (r :: (xs ++ tail)) items trig =
            parseLoop cfg (xs ++ tail) items trig := by
          simp [parseLoop, hf, stepState]
        rw [hstep]
        exact ih items trig hxs hcap
      · have hlist : freshItems cfg (r :: xs) = freshItems cfg xs := by
          simp [freshItems, List.filterMap_cons, hf]
        rw [hlist] at hcap ⊢
        rw [List.cons_append]
        have hstep : parseLoop cfg (r :: (xs ++ tail)) items trig =
            parseLoop cfg (xs ++ tail) items trig := by
          simp [parseLoop, hf, stepState]
        rw [hstep]
        exact ih items trig hxs hcap
      · have hlist : freshItems cfg (r :: xs) = i :: freshItems cfg xs := by
          simp [freshItems, List.filterMap_cons, hf]
        rw [hlist] at hcap ⊢
        have hcapstep : capReached cfg.maxItems (items.length + 1) = false := by
          apply capReached_eq_false cfg.maxItems _
            (items.length + (i :: freshItems cfg xs).length) hcap
          have h2 : (i :: freshItems cfg xs).length = (freshItems cfg xs).length + 1 := rfl
          omega
        rw [List.cons_append]
        have hstep : parseLoop cfg (r :: (xs ++ tail)) items trig =
            parseLoop cfg (xs ++ tail) (items ++ [i]) trig := by
          simp [parseLoop, hf, stepState, hcapstep]
        rw [hstep]
        have hcap' : capAllows cfg.maxItems
            ((items ++ [i]).length + (freshItems cfg xs).length) := by
          have hnum : (items ++ [i]).length + (freshItems cfg xs).length =
              items.length + (i :: freshItems cfg xs).length := by
            simp
            omega
          rw [hnum]
          exact hcap
        rw [ih (items ++ [i]) trig hxs hcap']
        simp

theorem parseLoop_stale_step (cfg : ParseCfg) (s : RawResult) (ys : List RawResult)
    (items : List Item) (t : StaleTrigger) (hs : processStub cfg s = Fate.stale t) :
    parseLoop cfg (s :: ys) items none =
      if cfg.stopAtStale then Except.ok (items, some t)
      else parseLoop cfg ys items (some t) := by
  simp only [parseLoop, hs, stepState]
  cases h : cfg.stopAtStale <;> simp [h]

theorem stepState_trig_some (cfg : ParseCfg) (f : Fate) (items : List Item)
    (t₀ : StaleTrigger) (c : Bool) (its : List Item) (tr : Option StaleTrigger)
    (h : stepState cfg f items (some t₀) = Except.ok (c, its, tr)) : tr = some t₀ := by
  cases f <;> simp [stepState] at h <;> tauto

theorem parseLoop_trig_stable (cfg : ParseCfg) :
    ∀ (l : List RawResult) (items : List Item) (t₀ : StaleTrigger)
      (out : List Item × Option StaleTrigger),
      parseLoop cfg l items (some t₀) = Except.ok out → out.2 = some t₀ := by
  intro l
  induction l with
  | nil =>
      intro items t₀ out h
      simp only [parseLoop] at h
      injection h with h
      rw [← h]
  | cons r rest ih =>
      intro items t₀ out h
      simp only [parseLoop] at h
      cases hs : stepState cfg (processStub cfg r) items (some t₀) with
      | error e => rw [hs] at h; simp at h
      | ok v =>
          rcases v with ⟨cont, its, tr⟩
          have htr : tr = some t₀ := stepState_trig_some cfg _ items t₀ cont its tr hs
          rw [hs] at h
          simp only at h
          split at h
          · rw [htr] at h
            exact ih its t₀ out h
          · injection h with h
            rw [← h, htr]

/-! ## Filter lemmas -/

theorem evaluateItem_item (item : Item) : (evaluateItem item).item = item := rfl

theorem filterItems_kept (now : Int) (l : List Item) :
    (filterItems now l).1 = l.filter (fun i => keepDecision i now) := by
  induction l with
  | nil => rfl
  | cons item rest ih =>
      simp only [filterItems, List.filter_cons]
      by_cases h₁ : isRecent item now = false
      · simp [keepDecision, h₁, ih]
      · by_cases h₂ : (evaluateItem item).excluded_keywords ≠ [] ∨
            (evaluateItem item).matched_keywords = []
        · simp [keepDecision, h₁, h₂, ih]
        · simp [keepDecision, h₁, h₂, ih]

theorem filterItems_dropped (now : Int) (l : List Item) :
    (filterItems now l).2 = (l.filter (fun i => !keepDecision i now)).map evaluateItem := by
  induction l with
  | nil => rfl
  | cons item rest ih =>
      simp only [filterItems, List.filter_cons]
      by_cases h₁ : isRecent item now = false
      · simp [keepDecision, h₁, ih]
      · by_cases h₂ : (evaluateItem item).excluded_keywords ≠ [] ∨
            (evaluateItem item).matched_keywords = []
        · simp [keepDecision, h₁, h₂, ih]
        · simp [keepDecision, h₁, h₂, ih]

/-! ## Notification lemmas -/

theorem fanoutFrom_fail (ok : Channel → Bool) (c : Channel) (hc : ok c = false) :
    ∀ (pre post : List Channel), (∀ x ∈ pre, ok x = true) →
      fanoutFrom ok (pre ++ c :: post) = (pre ++ [c], Except.error ()) := by
  intro pre
  induction pre with
  | nil =>
      intro post _
      simp [fanoutFrom, hc]
  | cons x pre ih =>
      intro post hpre
      have hx : ok x = true := hpre x (List.mem_cons_self x pre)
      have hr := ih post (fun y hy => hpre y (List.mem_cons_of_mem x hy))
      simp [fanoutFrom, hx, hr]

theorem configuredChannels_nodup (cfg : NotifyCfg) : (configuredChannels cfg).Nodup := by
  rcases cfg with ⟨w, s, e, n⟩
  cases w <;> cases s <;> cases e <;> cases n <;> decide

theorem configuredChannels_gate (cfg : NotifyCfg)
    (h : configuredChannels cfg ≠ []) :
    (cfg.webhook || cfg.smsConfig || cfg.ntfyTopic || cfg.emailConfig) = true := by
  rcases cfg with ⟨w, s, e, n⟩
  cases w <;> cases s <;> cases e <;> cases n <;> first | rfl | exact absurd rfl h

/-! ## Claims -/

/-- C8: for every listing whose detail page yields both a posted and an
updated timestamp, the computed reference time is the later (maximum) of
the two, normalized to UTC (offset 0); when only one is present the
reference time is that one, normalized to UTC. -/
theorem c8_reference_time_max (p u : DT) :
    referenceTime (some p) (some u) = some ⟨max p.instant u.instant, 0⟩ ∧
    referenceTime (some p) none = some ⟨p.instant, 0⟩ ∧
    referenceTime none (some u) = some ⟨u.instant, 0⟩ := by
  refine ⟨?_, rfl, rfl⟩
  have h1 : referenceTime (some p) (some u) =
      if (u.astimezoneUtc).instant > (p.astimezoneUtc).instant
      then some u.astimezoneUtc else some p.astimezoneUtc := rfl
  have hp : (p.astimezoneUtc).instant = p.instant := by
    simp [DT.astimezoneUtc, DT.instant]
  have hu : (u.astimezoneUtc).instant = u.instant := by
    simp [DT.astimezoneUtc, DT.instant]
  have hp2 : p.astimezoneUtc = ⟨p.instant, 0⟩ := rfl
  have hu2 : u.astimezoneUtc = ⟨u.instant, 0⟩ := rfl
  rw [h1, hu, hp, hu2, hp2]
  rcases le_or_lt u.instant p.instant with h | h
  · rw [if_neg (not_lt.mpr h), max_eq_left h]
  · rw [if_pos h, max_eq_right (le_of_lt h)]

/-- C5: `upsert` is idempotent full-row replacement keyed by `id`:
upserting the same listing set twice leaves the row count unchanged and
every row's lookup unchanged, and after one upsert the row stored under a
key is exactly the last batch row written to that key (full replacement —
in particular a field that became absent is stored absent), while keys not
in the batch keep their old row. -/
theorem c5_upsert_idempotent (t : List Row) (items : List Item) :
    (upsertItems (upsertItems t items) items).length = (upsertItems t items).length ∧
    (∀ k, lookupRow (upsertItems (upsertItems t items) items) k =
      lookupRow (upsertItems t items) k) ∧
    (∀ k, lookupRow (upsertItems t items) k =
      match lastWrite (items.map Item.as_row) k with
      | some r => some r
      | none => lookupRow t k) := by
  refine ⟨?_, ?_, lookupRow_upsertItems t items⟩
  · have hids : rowIds (upsertItems (upsertItems t items) items) =
        rowIds (upsertItems t items) :=
      rowIds_foldl_stable (items.map Item.as_row) (upsertItems t items)
        (fun r hr => mem_rowIds_foldl (items.map Item.as_row) t r hr)
    calc (upsertItems (upsertItems t items) items).length
        = (rowIds (upsertItems (upsertItems t items) items)).length :=
          (List.length_map _ _).symm
      _ = (rowIds (upsertItems t items)).length := by rw [hids]
      _ = (upsertItems t items).length := List.length_map _ _
  · intro k
    rw [lookupRow_upsertItems]
    cases h : lastWrite (items.map Item.as_row) k with
    | none => rfl
    | some r => rw [lookupRow_upsertItems, h]

/-- C3: with `stop_at_stale = true`, when every stub before `s` is neither
stale nor a price error and the item cap cannot fire on them, and `s` is
the first stub whose present reference time falls below the cutoff, the
crawl returns exactly the fresh items before `s` together with exactly one
stale marker carrying `s`'s title, url and reference time — whatever
follows `s` on the page is never evaluated (the conclusion does not depend
on `ys`). -/
theorem c3_stop_at_first_stale (region : String)
    (fetchTimes : String → Option DT × Option DT) (maxItems : Option Nat)
    (maxAgeSecs now : Int) (xs : List RawResult) (s : RawResult)
    (ys : List RawResult) (t : StaleTrigger)
    (hxs : ∀ r ∈ xs, Unhalting (mkCfg region fetchTimes maxItems true maxAgeSecs now) r)
    (hs : processStub (mkCfg region fetchTimes maxItems true maxAgeSecs now) s =
      Fate.stale t)
    (hcap : capAllows maxItems
      (freshItems (mkCfg region fetchTimes maxItems true maxAgeSecs now) xs).length) :
    parse_listings (xs ++ s :: ys) region fetchTimes maxItems maxAgeSecs true now =
      Except.ok
        (freshItems (mkCfg region fetchTimes maxItems true maxAgeSecs now) xs, some t) := by
  unfold parse_listings
  rw [parseLoop_clean_run _ (s :: ys) xs [] none hxs (by simpa using hcap),
    List.nil_append, parseLoop_stale_step _ s ys _ t hs,
    if_pos (show (mkCfg region fetchTimes maxItems true maxAgeSecs now).stopAtStale = true
      from rfl)]

/-- C3 witness: on a concrete page `[fresh, stale, later]` the crawl stops
at the stale stub, returns the one fresh item, and a single marker for the
stale stub. -/
theorem c3_witness :
    parse_listings (xsC3 ++ sC3 :: ysC3) "sanantonio" fetchC3 none 604800 true 1700000000 =
      Except.ok
        (freshItems (mkCfg "sanantonio" fetchC3 none true 604800 1700000000) xsC3,
          some trigA) := by
  apply c3_stop_at_first_stale
  · intro r hr
    rw [List.mem_singleton.mp hr]
    exact Or.inr (Or.inr ⟨itemB, rfl⟩)
  · rfl
  · trivial

/-- C7: with `stop_at_stale = false`, a stale stub is skipped
individually: the crawl of `xs ++ s :: ys` (with `s` the first stale stub)
continues into `ys` with the fresh items of `xs` and the marker of `s`,
and whenever the remaining enumeration terminates normally the returned
marker is still exactly `s`'s marker — later stale stubs never replace
it. -/
theorem c7_skip_stale_continue (region : String)
    (fetchTimes : String → Option DT × Option DT) (maxItems : Option Nat)
    (maxAgeSecs now : Int) (xs : List RawResult) (s : RawResult)
    (ys : List RawResult) (t : StaleTrigger)
    (hxs : ∀ r ∈ xs, Unhalting (mkCfg region fetchTimes maxItems false maxAgeSecs now) r)
    (hs : processStub (mkCfg region fetchTimes maxItems false maxAgeSecs now) s =
      Fate.stale t)
    (hcap : capAllows maxItems
      (freshItems (mkCfg region fetchTimes maxItems false maxAgeSecs now) xs).length) :
    parse_listings (xs ++ s :: ys) region fetchTimes maxItems maxAgeSecs false now =
      parseLoop (mkCfg region fetchTimes maxItems false maxAgeSecs now) ys
        (freshItems (mkCfg region fetchTimes maxItems false maxAgeSecs now) xs)
        (some t) ∧
    ∀ out : List Item × Option StaleTrigger,
      parseLoop (mkCfg region fetchTimes maxItems false maxAgeSecs now) ys
        (freshItems (mkCfg region fetchTimes maxItems false maxAgeSecs now) xs)
        (some t) = Except.ok out → out.2 = some t := by
  constructor
  · unfold parse_listings
    rw [parseLoop_clean_run _ (s :: ys) xs [] none hxs (by simpa using hcap),
      List.nil_append, parseLoop_stale_step _ s ys _ t hs,
      if_neg (show ¬ (mkCfg region fetchTimes maxItems false maxAgeSecs now).stopAtStale = true
        from fun h => Bool.noConfusion h)]
  · intro out h
    exact parseLoop_trig_stable _ ys _ t out h

/-- C7 witness: a page with one fresh stub followed by two stale stubs,
crawled with `stop_at_stale = false`. -/
theorem c7_witness :
    (parse_listings (xsC3 ++ sC3 :: ysC7) "sanantonio" fetchC7 none 604800 false 1700000000 =
      parseLoop (mkCfg "sanantonio" fetchC7 none false 604800 1700000000) ysC7
        (freshItems (mkCfg "sanantonio" fetchC7 none false 604800 1700000000) xsC3)
        (some trigA)) ∧
    ∀ out : List Item × Option StaleTrigger,
      parseLoop (mkCfg "sanantonio" fetchC7 none false 604800 1700000000) ysC7
        (freshItems (mkCfg "sanantonio" fetchC7 none false 604800 1700000000) xsC3)
        (some trigA) = Except.ok out → out.2 = some trigA := by
  apply c7_skip_stale_continue
  · intro r hr
    rw [List.mem_singleton.mp hr]
    exact Or.inr (Or.inr ⟨itemB, rfl⟩)
  · rfl
  · trivial

/-- C2 counterexample: a page whose first stub has no resolved reference
time (its detail page yielded neither timestamp), crawled with
`stop_at_stale = true`.  The claim predicts a StaleMarker referencing that
stub and an immediate halt; the code instead records no marker and
processes (and emits) the following stub. -/
theorem c2_counterexample :
    parse_listings pageC2 "sanantonio" fetchC2 none 604800 true 1700000000 =
      Except.ok ([itemB], none) ∧
    (none : Option StaleTrigger).isSome = false ∧
    itemB.id = "craigslist:sanantonio:222" := ⟨rfl, rfl, rfl⟩

/-- C2 amended: a stub whose resolved reference time is absent is simply
skipped — it is never recorded as the stale encounter and never halts
enumeration, whatever the stop-at-stale flag: the crawl result is the same
as if the stub were not on the page at all. -/
theorem c2_undated_skipped (region : String)
    (fetchTimes : String → Option DT × Option DT) (maxItems : Option Nat)
    (maxAgeSecs : Int) (stopAtStale : Bool) (now : Int)
    (xs : List RawResult) (a : RawResult) (ys : List RawResult)
    (ha : processStub (mkCfg region fetchTimes maxItems stopAtStale maxAgeSecs now) a =
      Fate.skipUndated) :
    parse_listings (xs ++ a :: ys) region fetchTimes maxItems maxAgeSecs stopAtStale now =
      parse_listings (xs ++ ys) region fetchTimes maxItems maxAgeSecs stopAtStale now := by
  unfold parse_listings
  exact parseLoop_skip_middle _ a ha ys xs [] none

/-- C2 witness: removing the undated stub from `pageC2` leaves the crawl
result unchanged. -/
theorem c2_witness :
    parse_listings pageC2 "sanantonio" fetchC2 none 604800 true 1700000000 =
      parse_listings [mkRes urlB "free couch"] "sanantonio" fetchC2 none 604800 true
        1700000000 :=
  c2_undated_skipped "sanantonio" fetchC2 none 604800 true 1700000000 []
    (mkRes urlA "old couch") [mkRes urlB "free couch"] rfl

/-- C10: every item returned by `parse_listings` carries a posted
timestamp that is timezone-aware UTC (offset 0) and at or above the stale
cutoff `now - max_age` computed once at entry; undated or below-cutoff
stubs are never emitted. -/
theorem c10_items_fresh_utc (page : List RawResult) (region : String)
    (fetchTimes : String → Option DT × Option DT) (maxItems : Option Nat)
    (maxAgeSecs : Int) (stopAtStale : Bool) (now : Int)
    (items : List Item) (trig : Option StaleTrigger)
    (h : parse_listings page region fetchTimes maxItems maxAgeSecs stopAtStale now =
      Except.ok (items, trig)) :
    ∀ i ∈ items, ∃ d : DT, i.posted_at = some d ∧ d.offMin = 0 ∧
      now - maxAgeSecs ≤ d.instant :=
  parseLoop_posted (mkCfg region fetchTimes maxItems stopAtStale maxAgeSecs now)
    (fun i => ∃ d : DT, i.posted_at = some d ∧ d.offMin = 0 ∧
      now - maxAgeSecs ≤ d.instant)
    (fun r i hf => processStub_fresh _ r i hf)
    page [] none (items, trig) (fun i hi => absurd hi (List.not_mem_nil i)) h

/-- C10 witness: the item emitted for `pageC2` carries an aware UTC
timestamp above the cutoff. -/
theorem c10_witness :
    itemB.posted_at = some (⟨1700000000, 0⟩ : DT) ∧
    (⟨1700000000, 0⟩ : DT).offMin = 0 ∧
    (1700000000 : Int) - 604800 ≤ (⟨1700000000, 0⟩ : DT).instant := by
  obtain ⟨d, hd, hoff, hinst⟩ :=
    c10_items_fresh_utc pageC2 "sanantonio" fetchC2 none 604800 true 1700000000
      [itemB] none rfl itemB (List.mem_singleton.mpr rfl)
  have h2 : some d = some (⟨1700000000, 0⟩ : DT) := hd.symm
  have hdd := Option.some_inj.mp h2
  subst hdd
  exact ⟨hd, hoff, hinst⟩

/-- C6: price extraction can fail, contrary to the claim — a price div
whose text strips to a digit string with two dots (here `"$1.50-2.50"`,
stripping to `"1.502.50"`) makes `float()` raise `ValueError`, which
propagates out of `parse_listings` instead of yielding a stub with no
price. -/
theorem c6_price_value_error :
    parse_listings pageC6 "sanantonio" fetchC2 none 604800 true 1700000000 =
      Except.error () ∧
    stripPriceText "$1.50-2.50" = "1.502.50" ∧
    floatOfStripped "1.502.50" = none := ⟨rfl, rfl, rfl⟩

/-- C4 counterexample: for a listing with no timestamps the produced drop
reason is the literal string `"missing posted date"`, not `"stale"` —
even though the listing matches an include keyword. -/
theorem c4_counterexample :
    describeRejection (evaluateItem itemNoDate) 1700000000 = "missing posted date" ∧
    describeRejection (evaluateItem itemNoDate) 1700000000 ≠ "stale" ∧
    (evaluateItem itemNoDate).matched_keywords = ["mattress"] := by
  refine ⟨rfl, ?_, rfl⟩
  decide

/-- C4 amended: a listing with no posted/updated timestamp is always
dropped by the filter regardless of its keyword content, and the
human-readable drop reason produced for it is the staleness-branch reason,
literally `"missing posted date"`. -/
theorem c4_undated_always_dropped (items : List Item) (item : Item) (now : Int)
    (hmem : item ∈ items) (hnone : item.posted_at = none) :
    item ∉ (filterItems now items).1 ∧
    evaluateItem item ∈ (filterItems now items).2 ∧
    describeRejection (evaluateItem item) now = "missing posted date" := by
  have hrec : isRecent item now = false := by simp [isRecent, hnone]
  have hkeep : keepDecision item now = false := by simp [keepDecision, hrec]
  refine ⟨?_, ?_, ?_⟩
  · rw [filterItems_kept]
    intro hc
    have hk := (List.mem_filter.mp hc).2
    rw [hkeep] at hk
    cases hk
  · rw [filterItems_dropped]
    exact List.mem_map.mpr
      ⟨item, List.mem_filter.mpr ⟨hmem, by rw [hkeep]; rfl⟩, rfl⟩
  · simp [describeRejection, evaluateItem_item, hrec, hnone]

/-- C4 witness: the undated mattress listing is dropped with reason
`"missing posted date"`. -/
theorem c4_witness :
    itemNoDate ∉ (filterItems 1700000000 [itemNoDate]).1 ∧
    evaluateItem itemNoDate ∈ (filterItems 1700000000 [itemNoDate]).2 ∧
    describeRejection (evaluateItem itemNoDate) 1700000000 = "missing posted date" :=
  c4_undated_always_dropped [itemNoDate] itemNoDate 1700000000
    (List.mem_singleton.mpr rfl) rfl

/-- C9: a recent listing matching at least one exclude keyword and at
least one include keyword is dropped (never kept), and its single
deterministic rejection reason is the exclude reason
`"excluded keywords: …"` — the exclude branch takes priority over the
include match, and the stale branch over both. -/
theorem c9_exclude_priority (items : List Item) (item : Item) (now : Int)
    (hmem : item ∈ items) (hrecent : isRecent item now = true)
    (hexc : (evaluateItem item).excluded_keywords ≠ [])
    (hinc : (evaluateItem item).matched_keywords ≠ []) :
    item ∉ (filterItems now items).1 ∧
    evaluateItem item ∈ (filterItems now items).2 ∧
    describeRejection (evaluateItem item) now =
      "excluded keywords: " ++
        String.intercalate ", " (evaluateItem item).excluded_keywords := by
  have hkeep : keepDecision item now = false := by
    simp [keepDecision, hrecent, hexc]
  refine ⟨?_, ?_, ?_⟩
  · rw [filterItems_kept]
    intro hc
    have hk := (List.mem_filter.mp hc).2
    rw [hkeep] at hk
    cases hk
  · rw [filterItems_dropped]
    exact List.mem_map.mpr
      ⟨item, List.mem_filter.mpr ⟨hmem, by rw [hkeep]; rfl⟩, rfl⟩
  · simp [describeRejection, evaluateItem_item, hrecent, hexc]

/-- C9 witness: `"free moving boxes and mattress"` (recent) is dropped
with the exclude reason. -/
theorem c9_witness :
    itemBoth ∉ (filterItems 1700000000 [itemBoth]).1 ∧
    evaluateItem itemBoth ∈ (filterItems 1700000000 [itemBoth]).2 ∧
    describeRejection (evaluateItem itemBoth) 1700000000 =
      "excluded keywords: " ++
        String.intercalate ", " (evaluateItem itemBoth).excluded_keywords := by
  apply c9_exclude_priority
  · exact List.mem_singleton.mpr rfl
  · rfl
  · decide
  · decide

/-- C1 counterexample: with Slack and SMS configured and the Slack send
raising, only Slack is attempted — SMS is configured yet never invoked
(the exception propagates out of `crawl_once`) — while the store changes,
committed before the fan-out, are untouched. -/
theorem c1_counterexample :
    (crawlTail [] [itemB] cfgBoth okFailSlack).2.1 = [Channel.slack] ∧
    Channel.sms ∈ configuredChannels cfgBoth ∧
    Channel.sms ∉ (crawlTail [] [itemB] cfgBoth okFailSlack).2.1 ∧
    (crawlTail [] [itemB] cfgBoth okFailSlack).1 = upsertItems [] [itemB] := by
  refine ⟨?_, ?_, ?_, rfl⟩ <;> decide

/-- C1 amended: the notification sends run sequentially with no exception
handler, so a failing channel aborts the fan-out: the attempted channels
are exactly the configured ones up to and including the first failure, the
exception escapes, and channels configured after the failing one are not
attempted; the store upsert, committed before any send, is unaffected. -/
theorem c1_fanout_aborts (t : List Row) (kept : List Item) (cfg : NotifyCfg)
    (ok : Channel → Bool) (hne : kept ≠ [])
    (pre : List Channel) (c : Channel) (post : List Channel)
    (hcfg : configuredChannels cfg = pre ++ c :: post)
    (hpre : ∀ x ∈ pre, ok x = true) (hc : ok c = false) :
    (crawlTail t kept cfg ok).1 = upsertItems t kept ∧
    (crawlTail t kept cfg ok).2.1 = pre ++ [c] ∧
    (crawlTail t kept cfg ok).2.2 = Except.error () ∧
    ∀ x ∈ post, x ∉ (crawlTail t kept cfg ok).2.1 := by
  have hlen : kept.length ≠ 0 := fun h0 => hne (List.length_eq_zero.mp h0)
  have hgate : (cfg.webhook || cfg.smsConfig || cfg.ntfyTopic || cfg.emailConfig) = true := by
    apply configuredChannels_gate
    rw [hcfg]
    simp
  have hfan : notifyFanout cfg kept.length ok = (pre ++ [c], Except.error ()) := by
    unfold notifyFanout
    rw [if_pos ⟨hlen, hgate⟩, hcfg]
    exact fanoutFrom_fail ok c hc pre post hpre
  refine ⟨rfl, ?_, ?_, ?_⟩
  · show (notifyFanout cfg kept.length ok).1 = pre ++ [c]
    rw [hfan]
  · show (notifyFanout cfg kept.length ok).2 = Except.error ()
    rw [hfan]
  · intro x hx
    show x ∉ (notifyFanout cfg kept.length ok).1
    rw [hfan]
    have hnd := configuredChannels_nodup cfg
    rw [hcfg] at hnd
    rcases List.nodup_append.mp hnd with ⟨_, hnd2, hdisj⟩
    have hxc : x ≠ c := fun hxc => (List.nodup_cons.mp hnd2).1 (hxc ▸ hx)
    intro hmem
    rcases List.mem_append.mp hmem with hmem | hmem
    · exact hdisj hmem (List.mem_cons_of_mem c hx)
    · exact hxc (List.mem_singleton.mp hmem)

/-- C1 witness: Slack and SMS configured, Slack fails first — only Slack
attempted, the exception escapes, the store keeps the upserted rows. -/
theorem c1_witness :
    (crawlTail [] [itemB] cfgBoth okFailSlack).1 = upsertItems [] [itemB] ∧
    (crawlTail [] [itemB] cfgBoth okFailSlack).2.1 = [Channel.slack] ∧
    (crawlTail [] [itemB] cfgBoth okFailSlack).2.2 = Except.error () ∧
    Channel.sms ∉ (crawlTail [] [itemB] cfgBoth okFailSlack).2.1 := by
  have h := c1_fanout_aborts [] [itemB] cfgBoth okFailSlack
    (List.cons_ne_nil itemB []) [] Channel.slack [Channel.sms] rfl
    (fun x hx => absurd hx (List.not_mem_nil x)) rfl
  exact ⟨h.1, h.2.1, h.2.2.1, h.2.2.2 Channel.sms (List.mem_singleton.mpr rfl)⟩

end FreeFinder

